import Mathlib

/-! milton-pio-lights: the serial line receiver and command dispatcher

A shallow embedding of `src/milton-pio-lights/src/main.cpp` (the globals,
`process` and `loop`, and the state `setup` leaves the devices in) together with
the properties of the command reception state machine.

Conventions of the embedding

* a `char` is a natural number below 256 (the value read from the serial port is
  reduced modulo 256), `uint32_t` values are natural numbers reduced modulo `2^32`;
* `buffer` is a vector of exactly 255 bytes, so a write needs an index below 255;
  `loop` returns `none` when the source would write outside the array (undefined
  behaviour in C++);
* the serial output is the list of lines printed so far, oldest first;
* `millis()` is read twice in `loop`; both readings are arguments of `loop`, and a
  scheduler tick at time `now` (`tick`) is the run of `loop` in which both readings
  return `now`.
-/

namespace Milton

/-! ## External collaborators -/

/-- Modelled from the spec: the LED driver library (`Adafruit_NeoPixel`) is not part of
the sources; a colour is the RGB triple handed to `Adafruit_NeoPixel::Color`. -/
structure RGB where
  r : Nat
  g : Nat
  b : Nat
deriving DecidableEq, Repr

/-- Modelled from the spec: `Adafruit_NeoPixel::Color(r, g, b)`, the colour with the given
red, green and blue components. -/
def Color (r g b : Nat) : RGB := ⟨r, g, b⟩

/-- Modelled from the spec: the LED strip driver (`Adafruit_NeoPixel pixels(9, PIXELS_PIN)`),
which "accepts a command to fill all pixels with a given RGB triple and a command to push
the buffered colors to hardware". `pixels` is the driver's colour buffer, `shown` the
colours last pushed to the LEDs. -/
structure Strip where
  pixels : List RGB
  shown : List RGB
deriving DecidableEq, Repr

/-- Modelled from the spec: `pixels.fill(c)` sets each of the 9 pixels of the colour
buffer to `c`. -/
def Strip.fill (p : Strip) (c : RGB) : Strip :=
  { pixels := List.replicate 9 c, shown := p.shown }

/-- Modelled from the spec: `pixels.show()` pushes the colour buffer to the LEDs. -/
def Strip.show (p : Strip) : Strip :=
  { pixels := p.pixels, shown := p.pixels }

/-! ## Program state -/

/-- The line buffer `static char buffer[255]`. -/
abbrev Buffer := Mathlib.Vector Nat 255

/-- The result of `memset(buffer, '\0', 255)`. -/
def zeroBuffer : Buffer := Mathlib.Vector.replicate 255 0

/-- The globals of `main.cpp` and the state of the devices the program drives. -/
structure State where
  /-- The global `static char buffer[255]`. -/
  buffer : Buffer
  /-- The global `static uint32_t cursor`. -/
  cursor : Nat
  /-- The global `static uint32_t last_read`. -/
  last_read : Nat
  /-- The global `static bool cleared`. -/
  cleared : Bool
  /-- The global `static Adafruit_NeoPixel pixels`. -/
  pixels : Strip
  /-- The level of the `LED_BUILTIN` pin: `true` is `HIGH`. -/
  led : Bool
  /-- The lines written with `Serial.println`, oldest first. -/
  serial : List String
deriving DecidableEq

/-- The C string literal `s`: its bytes followed by the terminating zero byte. -/
def cstr (s : String) : List Nat := s.toList.map Char.toNat ++ [0]

/-- The C library function `strcmp` on two byte sequences read from their start: the
difference of the first pair of bytes that differ, `0` when both strings end (zero byte)
without a difference. A sequence that ends is read as if a zero byte followed; with a
255-byte buffer and the literals of `process` the comparison always stops before that. -/
def strcmp : List Nat → List Nat → Int
  | [], [] => 0
  | [], b :: _ => -(b : Int)
  | a :: _, [] => (a : Int)
  | a :: as, b :: bs =>
    if a ≠ b then (a : Int) - (b : Int)
    else if a = 0 then 0
    else strcmp as bs

/-- The C string held by a buffer: the bytes before its first zero byte. -/
def text (b : Buffer) : List Nat := b.toList.takeWhile (fun c => c ≠ 0)

/-- `Serial.println(line)`. -/
def println (s : State) (line : String) : State :=
  { s with serial := s.serial ++ [line] }

/-- The function `process()`. -/
def process (s : State) : State :=
  if strcmp s.buffer.toList (cstr "on") = 0 then
    let s := println s "ok (on)"
    let s := { s with pixels := s.pixels.fill (Color 255 255 255) }
    let s := { s with pixels := s.pixels.show }
    { s with led := true }
  else if strcmp s.buffer.toList (cstr "red") = 0 then
    let s := println s "ok (red)"
    let s := { s with pixels := s.pixels.fill (Color 255 0 0) }
    { s with pixels := s.pixels.show }
  else if strcmp s.buffer.toList (cstr "green") = 0 then
    let s := println s "ok (green)"
    let s := { s with pixels := s.pixels.fill (Color 0 255 0) }
    { s with pixels := s.pixels.show }
  else if strcmp s.buffer.toList (cstr "blue") = 0 then
    let s := println s "ok (blue)"
    let s := { s with pixels := s.pixels.fill (Color 0 0 255) }
    { s with pixels := s.pixels.show }
  else if strcmp s.buffer.toList (cstr "off") = 0 then
    let s := println s "ok (off)"
    let s := { s with pixels := s.pixels.fill (Color 0 0 0) }
    let s := { s with pixels := s.pixels.show }
    { s with led := false }
  else
    println s "failed"

/-- The state when `loop` first runs: the globals with their initialisers, and the devices
as `setup()` leaves them (`pixels.begin(); pixels.show()` pushes the all-black colour
buffer, the indicator pin is low, nothing has been printed). -/
def init : State :=
  { buffer := zeroBuffer
    cursor := 0
    last_read := 0
    cleared := false
    pixels := { pixels := List.replicate 9 (Color 0 0 0), shown := List.replicate 9 (Color 0 0 0) }
    led := false
    serial := [] }

/-- The test `millis() - last_read > 1000` in `uint32_t` arithmetic, `now` being the value
`millis()` returns. -/
def elapsed (now last_read : Nat) : Nat :=
  (now % 2 ^ 32 + 2 ^ 32 - last_read % 2 ^ 32) % 2 ^ 32

/-- The second statement of `loop` (lines 78-87): the staleness check, `now` being the
value `millis()` returns there. -/
def staleCheck (s : State) (now : Nat) : State :=
  if elapsed now s.last_read > 1000 ∧ s.cursor ≠ 0 then
    let s := { s with cursor := 0 }
    let s := if !s.cleared then println { s with cleared := true } "error" else s
    { s with buffer := zeroBuffer }
  else s

/-- The function `loop()`. `avail` is `some b` when `Serial.available() > 0` and
`Serial.read()` returns `b`, `none` when no byte is available; `now₁` is what `millis()`
returns at line 64 and `now₂` what it returns at line 78. The result is `none` when the
write `buffer[cursor] = value` is outside the 255-byte array. -/
def loop (s : State) (avail : Option Nat) (now₁ now₂ : Nat) : Option State :=
  match avail with
  | some b =>
    let value := b % 256
    let s := { s with last_read := now₁ % 2 ^ 32 }
    let s := { s with cleared := false }
    if value = 10 ∨ value = 13 then
      let s := process s
      let s := { s with cursor := 0 }
      some { s with buffer := zeroBuffer }
    else if h : s.cursor < 255 then
      let s := { s with buffer := s.buffer.set ⟨s.cursor, h⟩ value }
      let s := { s with cursor := (s.cursor + 1) % 2 ^ 32 }
      some (staleCheck s now₂)
    else none
  | none => some (staleCheck s now₂)

/-- One scheduler tick at time `now`: a run of `loop` in which `millis()` returns `now`. -/
def tick (s : State) (avail : Option Nat) (now : Nat) : Option State :=
  loop s avail now now

/-- A sequence of ticks, each given by the byte it delivers (if any) and its time. The
result is `none` as soon as one tick writes outside the buffer. -/
def run (s : State) : List (Option Nat × Nat) → Option State
  | [] => some s
  | (avail, now) :: rest =>
    match tick s avail now with
    | some s' => run s' rest
    | none => none

/-- The bytes of a string, as the serial port delivers them. -/
def bytes (s : String) : List Nat := s.toList.map Char.toNat

/-- A buffer holding the given bytes from index 0, zero elsewhere. -/
def bufferOf (l : List Nat) : Buffer :=
  ⟨(l ++ List.replicate 255 0).take 255, by
    rw [List.length_take, List.length_append, List.length_replicate]; omega⟩

/-- The five recognized commands, as byte sequences. -/
def commands : List (List Nat) :=
  [bytes "on", bytes "red", bytes "green", bytes "blue", bytes "off"]

/-- The names of the five recognized commands. -/
def names : List String := ["on", "red", "green", "blue", "off"]

/-- The strip after `pixels.fill(c); pixels.show()`: all 9 pixels are `c`, in the colour
buffer and on the LEDs. -/
def filled (c : RGB) : Strip :=
  { pixels := List.replicate 9 c, shown := List.replicate 9 c }

/-- The startup state with the buffer holding the bytes of `name` from index 0. -/
def holding (name : String) : State :=
  { init with buffer := bufferOf (bytes name) }

/-- A run of idle ticks (no byte available) at the given times. -/
def idle (times : List Nat) : List (Option Nat × Nat) :=
  times.map (fun t => (none, t))

/-- The states the program can be in when `loop` is entered: those some sequence of ticks
leads to from the startup state. -/
def Reachable (s : State) : Prop :=
  ∃ ticks, run init ticks = some s

/-- The state after the bytes `r`, `e` have arrived at times 0 and 1 from startup. -/
def afterRE : State :=
  { init with buffer := bufferOf [114, 101], cursor := 2, last_read := 1 }

theorem strcmp_literal (cs : List Nat) (hcs : ∀ c ∈ cs, c ≠ 0) (l : List Nat) :
    strcmp l (cs ++ [0]) = 0 ↔ l.takeWhile (fun c => c ≠ 0) = cs := by
  induction cs generalizing l with
  | nil =>
    cases l with
    | nil => simp [strcmp]
    | cons a as =>
      by_cases ha : a = 0
      · simp [strcmp, ha]
      · simp [strcmp, ha, List.takeWhile]
  | cons c cs ih =>
    have hc : c ≠ 0 := hcs c (List.mem_cons_self _ _)
    have hcs' : ∀ d ∈ cs, d ≠ 0 := fun d hd => hcs d (List.mem_cons_of_mem _ hd)
    cases l with
    | nil => simp [strcmp, hc]
    | cons a as =>
      by_cases hac : a = c
      · subst hac
        simp [strcmp, hc, List.takeWhile, ih hcs' as]
      · have h1 : (a : Int) - (c : Int) ≠ 0 := by omega
        by_cases ha : a = 0
        · subst ha
          simp [strcmp, h1, List.takeWhile, hc, Ne.symm hc]
        · simp [strcmp, hac, h1, ha, List.takeWhile]

theorem cstr_eq (name : String) : cstr name = bytes name ++ [0] := rfl

theorem strcmp_on (b : Buffer) : strcmp b.toList (cstr "on") = 0 ↔ text b = bytes "on" :=
  strcmp_literal (bytes "on") (by decide) b.toList

theorem strcmp_red (b : Buffer) : strcmp b.toList (cstr "red") = 0 ↔ text b = bytes "red" :=
  strcmp_literal (bytes "red") (by decide) b.toList

theorem strcmp_green (b : Buffer) :
    strcmp b.toList (cstr "green") = 0 ↔ text b = bytes "green" :=
  strcmp_literal (bytes "green") (by decide) b.toList

theorem strcmp_blue (b : Buffer) : strcmp b.toList (cstr "blue") = 0 ↔ text b = bytes "blue" :=
  strcmp_literal (bytes "blue") (by decide) b.toList

theorem strcmp_off (b : Buffer) : strcmp b.toList (cstr "off") = 0 ↔ text b = bytes "off" :=
  strcmp_literal (bytes "off") (by decide) b.toList

/-! ## `process` by cases on the buffered line -/

theorem process_on (s : State) (h : text s.buffer = bytes "on") :
    process s = { s with serial := s.serial ++ ["ok (on)"],
                         pixels := filled (Color 255 255 255), led := true } := by
  have e1 : strcmp s.buffer.toList (cstr "on") = 0 := (strcmp_on _).2 h
  unfold process
  rw [if_pos e1]
  rfl

theorem process_red (s : State) (h : text s.buffer = bytes "red") :
    process s = { s with serial := s.serial ++ ["ok (red)"],
                         pixels := filled (Color 255 0 0) } := by
  have e1 : ¬ strcmp s.buffer.toList (cstr "on") = 0 := by rw [strcmp_on, h]; decide
  have e2 : strcmp s.buffer.toList (cstr "red") = 0 := (strcmp_red _).2 h
  unfold process
  rw [if_neg e1, if_pos e2]
  rfl

theorem process_green (s : State) (h : text s.buffer = bytes "green") :
    process s = { s with serial := s.serial ++ ["ok (green)"],
                         pixels := filled (Color 0 255 0) } := by
  have e1 : ¬ strcmp s.buffer.toList (cstr "on") = 0 := by rw [strcmp_on, h]; decide
  have e2 : ¬ strcmp s.buffer.toList (cstr "red") = 0 := by rw [strcmp_red, h]; decide
  have e3 : strcmp s.buffer.toList (cstr "green") = 0 := (strcmp_green _).2 h
  unfold process
  rw [if_neg e1, if_neg e2, if_pos e3]
  rfl

theorem process_blue (s : State) (h : text s.buffer = bytes "blue") :
    process s = { s with serial := s.serial ++ ["ok (blue)"],
                         pixels := filled (Color 0 0 255) } := by
  have e1 : ¬ strcmp s.buffer.toList (cstr "on") = 0 := by rw [strcmp_on, h]; decide
  have e2 : ¬ strcmp s.buffer.toList (cstr "red") = 0 := by rw [strcmp_red, h]; decide
  have e3 : ¬ strcmp s.buffer.toList (cstr "green") = 0 := by rw [strcmp_green, h]; decide
  have e4 : strcmp s.buffer.toList (cstr "blue") = 0 := (strcmp_blue _).2 h
  unfold process
  rw [if_neg e1, if_neg e2, if_neg e3, if_pos e4]
  rfl

theorem process_off (s : State) (h : text s.buffer = bytes "off") :
    process s = { s with serial := s.serial ++ ["ok (off)"],
                         pixels := filled (Color 0 0 0), led := false } := by
  have e1 : ¬ strcmp s.buffer.toList (cstr "on") = 0 := by rw [strcmp_on, h]; decide
  have e2 : ¬ strcmp s.buffer.toList (cstr "red") = 0 := by rw [strcmp_red, h]; decide
  have e3 : ¬ strcmp s.buffer.toList (cstr "green") = 0 := by rw [strcmp_green, h]; decide
  have e4 : ¬ strcmp s.buffer.toList (cstr "blue") = 0 := by rw [strcmp_blue, h]; decide
  have e5 : strcmp s.buffer.toList (cstr "off") = 0 := (strcmp_off _).2 h
  unfold process
  rw [if_neg e1, if_neg e2, if_neg e3, if_neg e4, if_pos e5]
  rfl

theorem process_failed (s : State) (h : text s.buffer ∉ commands) :
    process s = { s with serial := s.serial ++ ["failed"] } := by
  simp only [commands, List.mem_cons, List.mem_singleton, List.not_mem_nil, or_false,
    not_or] at h
  obtain ⟨h1, h2, h3, h4, h5⟩ := h
  have e1 : ¬ strcmp s.buffer.toList (cstr "on") = 0 := by rw [strcmp_on]; exact h1
  have e2 : ¬ strcmp s.buffer.toList (cstr "red") = 0 := by rw [strcmp_red]; exact h2
  have e3 : ¬ strcmp s.buffer.toList (cstr "green") = 0 := by rw [strcmp_green]; exact h3
  have e4 : ¬ strcmp s.buffer.toList (cstr "blue") = 0 := by rw [strcmp_blue]; exact h4
  have e5 : ¬ strcmp s.buffer.toList (cstr "off") = 0 := by rw [strcmp_off]; exact h5
  unfold process
  rw [if_neg e1, if_neg e2, if_neg e3, if_neg e4, if_neg e5]
  rfl

/-! ## One run of `loop` -/

theorem elapsed_self (now : Nat) : elapsed now (now % 2 ^ 32) = 0 := by
  unfold elapsed
  omega

theorem staleCheck_fresh (s : State) (now : Nat)
    (h : ¬ (elapsed now s.last_read > 1000 ∧ s.cursor ≠ 0)) : staleCheck s now = s := by
  unfold staleCheck
  rw [if_neg h]

theorem staleCheck_stale (s : State) (now : Nat)
    (h : elapsed now s.last_read > 1000) (hc : s.cursor ≠ 0) :
    staleCheck s now =
      { s with cursor := 0, buffer := zeroBuffer, cleared := true,
               serial := if s.cleared then s.serial else s.serial ++ ["error"] } := by
  unfold staleCheck
  rw [if_pos ⟨h, hc⟩]
  cases hcl : s.cleared <;> simp [hcl, println]

theorem tick_idle (s : State) (now : Nat) : tick s none now = some (staleCheck s now) := rfl

theorem tick_terminator (s : State) (b now : Nat) (hb : b % 256 = 10 ∨ b % 256 = 13) :
    tick s (some b) now =
      some { process { s with last_read := now % 2 ^ 32, cleared := false } with
               cursor := 0, buffer := zeroBuffer } := by
  unfold tick loop
  simp only [hb, if_true]

theorem tick_byte (s : State) (b now : Nat) (hb : ¬ (b % 256 = 10 ∨ b % 256 = 13))
    (hc : s.cursor < 255) :
    tick s (some b) now =
      some { s with buffer := s.buffer.set ⟨s.cursor, hc⟩ (b % 256),
                    cursor := s.cursor + 1, last_read := now % 2 ^ 32, cleared := false } := by
  have hmod : (s.cursor + 1) % 2 ^ 32 = s.cursor + 1 := Nat.mod_eq_of_lt (by omega)
  unfold tick loop
  simp only [hb, if_false, hc, dite_true, hmod]
  rw [staleCheck_fresh]
  intro h
  have h0 := elapsed_self now
  simp only [] at h
  omega

theorem tick_overflow (s : State) (b now : Nat) (hb : ¬ (b % 256 = 10 ∨ b % 256 = 13))
    (hc : ¬ s.cursor < 255) : tick s (some b) now = none := by
  unfold tick loop
  simp only [hb, if_false, hc, dite_false]

/-! ## Feeding bytes -/

theorem set_at_end (pre : List Nat) (b : Nat) (h : pre.length + 1 ≤ 255) :
    (pre ++ List.replicate (255 - pre.length) 0).set pre.length b
      = (pre ++ [b]) ++ List.replicate (255 - (pre ++ [b]).length) 0 := by
  have e : 255 - pre.length = (255 - (pre.length + 1)) + 1 := by omega
  rw [e, List.replicate_succ, List.set_append_right _ _ (le_refl _)]
  simp

theorem takeWhile_zero_padded (bs : List Nat) (n : Nat) (h : ∀ b ∈ bs, b ≠ 0) (hn : 0 < n) :
    (bs ++ List.replicate n 0).takeWhile (fun c => c ≠ 0) = bs := by
  obtain ⟨m, rfl⟩ : ∃ m, n = m + 1 := ⟨n - 1, by omega⟩
  rw [List.takeWhile_append_of_pos (by simpa using h)]
  simp [List.replicate_succ, List.takeWhile]

theorem run_cons (s : State) (avail : Option Nat) (now : Nat)
    (rest : List (Option Nat × Nat)) (s' : State) (h : tick s avail now = some s') :
    run s ((avail, now) :: rest) = run s' rest := by
  simp [run, h]

theorem run_append (xs ys : List (Option Nat × Nat)) (s s' : State)
    (h : run s xs = some s') : run s (xs ++ ys) = run s' ys := by
  induction xs generalizing s with
  | nil =>
    simp only [run, Option.some.injEq] at h
    subst h
    rfl
  | cons x xs ih =>
    obtain ⟨avail, now⟩ := x
    cases ht : tick s avail now with
    | none => simp [run, ht] at h
    | some s1 =>
      rw [run_cons s avail now xs s1 ht] at h
      rw [List.cons_append, run_cons s avail now (xs ++ ys) s1 ht]
      exact ih s1 h

/-- Feeding non-terminator bytes `bs`, one per tick at any times, to a state whose buffer
holds `pre` followed by zero bytes and whose cursor is at the end of `pre`: the bytes are
appended, nothing is printed and the devices are untouched, as long as the buffer has the
room. -/
theorem run_bytes (bs : List Nat) :
    ∀ (ticks : List (Option Nat × Nat)) (s : State) (pre : List Nat),
      ticks.map Prod.fst = bs.map some →
      (∀ b ∈ bs, b < 256 ∧ b ≠ 10 ∧ b ≠ 13) →
      s.cursor = pre.length → pre.length + bs.length ≤ 255 →
      s.buffer.toList = pre ++ List.replicate (255 - pre.length) 0 →
      ∃ s', run s ticks = some s' ∧ s'.cursor = pre.length + bs.length ∧
        s'.buffer.toList = (pre ++ bs) ++ List.replicate (255 - (pre.length + bs.length)) 0 ∧
        s'.serial = s.serial ∧ s'.pixels = s.pixels ∧ s'.led = s.led := by
  induction bs with
  | nil =>
    intro ticks s pre hmap _ hcur _ hbuf
    have ht : ticks = [] := by simpa using hmap
    subst ht
    exact ⟨s, rfl, by simpa using hcur, by simpa using hbuf, rfl, rfl, rfl⟩
  | cons b bs ih =>
    intro ticks s pre hmap hbs hcur hlen hbuf
    cases ticks with
    | nil => simp at hmap
    | cons x rest =>
      obtain ⟨avail, now⟩ := x
      simp only [List.map_cons, List.cons.injEq] at hmap
      obtain ⟨hav, hrest⟩ := hmap
      change avail = some b at hav
      subst hav
      obtain ⟨hb256, hb10, hb13⟩ := hbs b (List.mem_cons_self _ _)
      have hmod : b % 256 = b := Nat.mod_eq_of_lt hb256
      have hnt : ¬ (b % 256 = 10 ∨ b % 256 = 13) := by rw [hmod]; omega
      simp only [List.length_cons] at hlen
      have hc : s.cursor < 255 := by omega
      have ht := tick_byte s b now hnt hc
      rw [run_cons s (some b) now rest _ ht]
      have hbuf1 : (s.buffer.set ⟨s.cursor, hc⟩ (b % 256)).toList
          = (pre ++ [b]) ++ List.replicate (255 - (pre ++ [b]).length) 0 := by
        rw [Mathlib.Vector.toList_set, hbuf, hmod]
        simp only [hcur]
        exact set_at_end pre b (by omega)
      obtain ⟨s', hrun, hcur', hbuf', hser, hpix, hled⟩ :=
        ih rest
          { s with buffer := s.buffer.set ⟨s.cursor, hc⟩ (b % 256),
                   cursor := s.cursor + 1, last_read := now % 2 ^ 32, cleared := false }
          (pre ++ [b]) hrest (fun c hc => hbs c (List.mem_cons_of_mem _ hc))
          (by simp [hcur]) (by simp; omega) hbuf1
      refine ⟨s', hrun, ?_, ?_, hser, hpix, hled⟩
      · rw [hcur']; simp; omega
      · rw [hbuf']; simp
        congr 1
        omega

/-- Feeding non-terminator bytes to a state with cursor 0 and an all-zero buffer. -/
theorem run_bytes_clear (bs : List Nat) (ticks : List (Option Nat × Nat)) (s : State)
    (hmap : ticks.map Prod.fst = bs.map some)
    (hbs : ∀ b ∈ bs, b < 256 ∧ b ≠ 10 ∧ b ≠ 13)
    (hcur : s.cursor = 0) (hbuf : s.buffer = zeroBuffer) (hlen : bs.length ≤ 255) :
    ∃ s', run s ticks = some s' ∧ s'.cursor = bs.length ∧
      s'.buffer.toList = bs ++ List.replicate (255 - bs.length) 0 ∧
      s'.serial = s.serial ∧ s'.pixels = s.pixels ∧ s'.led = s.led := by
  have h := run_bytes bs ticks s [] hmap hbs (by simpa using hcur) (by simpa using hlen)
    (by rw [hbuf]; rfl)
  simpa using h

/-! ## Dispatch -/

/-- C1: for each of the five recognized commands, `process()` run on a buffer whose text is
exactly that command appends exactly one line, the matching acknowledgment, fills and shows
the strip with the command's colour, and sets the indicator as enumerated: `on` white and
indicator HIGH, `red`, `green`, `blue` the pure primary and indicator unchanged, `off`
black and indicator LOW. Nothing else in the state changes. -/
theorem C1_process_recognized (s : State) :
    (text s.buffer = bytes "on" →
      process s = { s with serial := s.serial ++ ["ok (on)"],
                           pixels := filled (Color 255 255 255), led := true }) ∧
    (text s.buffer = bytes "red" →
      process s = { s with serial := s.serial ++ ["ok (red)"],
                           pixels := filled (Color 255 0 0), led := s.led }) ∧
    (text s.buffer = bytes "green" →
      process s = { s with serial := s.serial ++ ["ok (green)"],
                           pixels := filled (Color 0 255 0), led := s.led }) ∧
    (text s.buffer = bytes "blue" →
      process s = { s with serial := s.serial ++ ["ok (blue)"],
                           pixels := filled (Color 0 0 255), led := s.led }) ∧
    (text s.buffer = bytes "off" →
      process s = { s with serial := s.serial ++ ["ok (off)"],
                           pixels := filled (Color 0 0 0), led := false }) :=
  ⟨process_on s, process_red s, process_green s, process_blue s, process_off s⟩

/-- C1 at the five buffers that hold a command followed by zero bytes. -/
theorem C1_process_recognized_witness :
    (text (holding "on").buffer = bytes "on" ∧
      process (holding "on") =
        { (holding "on") with
          serial := (holding "on").serial ++ ["ok (on)"]
          pixels := filled (Color 255 255 255)
          led := true }) ∧
    (text (holding "red").buffer = bytes "red" ∧
      process (holding "red") =
        { (holding "red") with
          serial := (holding "red").serial ++ ["ok (red)"]
          pixels := filled (Color 255 0 0)
          led := (holding "red").led }) ∧
    (text (holding "green").buffer = bytes "green" ∧
      process (holding "green") =
        { (holding "green") with
          serial := (holding "green").serial ++ ["ok (green)"]
          pixels := filled (Color 0 255 0)
          led := (holding "green").led }) ∧
    (text (holding "blue").buffer = bytes "blue" ∧
      process (holding "blue") =
        { (holding "blue") with
          serial := (holding "blue").serial ++ ["ok (blue)"]
          pixels := filled (Color 0 0 255)
          led := (holding "blue").led }) ∧
    (text (holding "off").buffer = bytes "off" ∧
      process (holding "off") =
        { (holding "off") with
          serial := (holding "off").serial ++ ["ok (off)"]
          pixels := filled (Color 0 0 0)
          led := false }) :=
  ⟨⟨by decide, (C1_process_recognized (holding "on")).1 (by decide)⟩,
   ⟨by decide, (C1_process_recognized (holding "red")).2.1 (by decide)⟩,
   ⟨by decide, (C1_process_recognized (holding "green")).2.2.1 (by decide)⟩,
   ⟨by decide, (C1_process_recognized (holding "blue")).2.2.2.1 (by decide)⟩,
   ⟨by decide, (C1_process_recognized (holding "off")).2.2.2.2 (by decide)⟩⟩

/-- C2: for every buffer whose text (the bytes before its first zero byte) is not one of
`on`, `red`, `green`, `blue`, `off`, `process()` appends exactly the single line `failed`
and changes nothing else: the strip colours and the indicator in particular. -/
theorem C2_process_unrecognized (s : State) (h : text s.buffer ∉ commands) :
    process s = { s with serial := s.serial ++ ["failed"] } ∧
    (process s).serial = s.serial ++ ["failed"] ∧
    (process s).pixels = s.pixels ∧ (process s).led = s.led := by
  rw [process_failed s h]
  exact ⟨rfl, rfl, rfl, rfl⟩

/-- C2 at the empty text, the different-case text `ON`, the proper prefix `re` and the
extension `reds`. -/
theorem C2_process_unrecognized_witness :
    (text (holding "").buffer ∉ commands ∧
      (process (holding "")).serial = (holding "").serial ++ ["failed"]) ∧
    (text (holding "ON").buffer ∉ commands ∧
      (process (holding "ON")).serial = (holding "ON").serial ++ ["failed"]) ∧
    (text (holding "re").buffer ∉ commands ∧
      (process (holding "re")).serial = (holding "re").serial ++ ["failed"]) ∧
    (text (holding "reds").buffer ∉ commands ∧
      (process (holding "reds")).serial = (holding "reds").serial ++ ["failed"]) :=
  ⟨⟨by decide, (C2_process_unrecognized (holding "") (by decide)).2.1⟩,
   ⟨by decide, (C2_process_unrecognized (holding "ON") (by decide)).2.1⟩,
   ⟨by decide, (C2_process_unrecognized (holding "re") (by decide)).2.1⟩,
   ⟨by decide, (C2_process_unrecognized (holding "reds") (by decide)).2.1⟩⟩

/-! ## Receiving a command line -/

theorem names_cases (c : String) (hc : c ∈ names) :
    c = "on" ∨ c = "red" ∨ c = "green" ∨ c = "blue" ∨ c = "off" := by
  simpa [names] using hc

theorem bytes_names (c : String) (hc : c ∈ names) :
    (∀ b ∈ bytes c, b < 256 ∧ b ≠ 10 ∧ b ≠ 13) ∧ (∀ b ∈ bytes c, b ≠ 0) ∧
      (bytes c).length < 255 := by
  rcases names_cases c hc with h | h | h | h | h <;> subst h <;> decide

theorem process_ack (s : State) (c : String) (hc : c ∈ names) (h : text s.buffer = bytes c) :
    (process s).serial = s.serial ++ ["ok (" ++ c ++ ")"] := by
  rcases names_cases c hc with e | e | e | e | e <;> subst e
  · rw [process_on s h]; rfl
  · rw [process_red s h]; rfl
  · rw [process_green s h]; rfl
  · rw [process_blue s h]; rfl
  · rw [process_off s h]; rfl

/-- C3: for each of the five commands `c` and each terminator `t` (`'\n'` is 10, `'\r'` is
13): from a state with cursor 0 and an all-zero buffer, feeding the bytes of `c` one per
tick (at any times) prints nothing on any of those ticks (the output after every initial
part of the ticks is the output at the start), and the next tick, delivering `t`, prints
exactly `ok (c)` and nothing else. -/
theorem C3_command_then_terminator (s : State) (hcur : s.cursor = 0)
    (hbuf : s.buffer = zeroBuffer) (c : String) (hc : c ∈ names)
    (t : Nat) (ht : t = 10 ∨ t = 13)
    (ticks : List (Option Nat × Nat)) (hticks : ticks.map Prod.fst = (bytes c).map some)
    (now : Nat) :
    (∀ k, ∃ sk, run s (ticks.take k) = some sk ∧ sk.serial = s.serial) ∧
    ∃ s1 s2, run s ticks = some s1 ∧ tick s1 (some t) now = some s2 ∧
      run s (ticks ++ [(some t, now)]) = some s2 ∧
      s2.serial = s.serial ++ ["ok (" ++ c ++ ")"] := by
  obtain ⟨hnt, hnz, hlen⟩ := bytes_names c hc
  constructor
  · intro k
    have hmap : (ticks.take k).map Prod.fst = ((bytes c).take k).map some := by
      rw [List.map_take, hticks, List.map_take]
    obtain ⟨sk, hrun, _, _, hser, _, _⟩ :=
      run_bytes_clear ((bytes c).take k) (ticks.take k) s hmap
        (fun b hb => hnt b (List.mem_of_mem_take hb)) hcur hbuf
        (by rw [List.length_take]; omega)
    exact ⟨sk, hrun, hser⟩
  · obtain ⟨s1, hrun, _, hb1, hser, _, _⟩ :=
      run_bytes_clear (bytes c) ticks s hticks hnt hcur hbuf (by omega)
    have htext : text s1.buffer = bytes c := by
      unfold text
      rw [hb1]
      exact takeWhile_zero_padded (bytes c) _ hnz (by omega)
    have hterm : t % 256 = 10 ∨ t % 256 = 13 := by omega
    have htick := tick_terminator s1 t now hterm
    refine ⟨s1, _, hrun, htick, ?_, ?_⟩
    · rw [run_append ticks _ s s1 hrun, run_cons s1 (some t) now [] _ htick]
      rfl
    · have h := process_ack { s1 with last_read := now % 2 ^ 32, cleared := false } c hc htext
      show (process { s1 with last_read := now % 2 ^ 32, cleared := false }).serial = _
      rw [h]
      show s1.serial ++ _ = _
      rw [hser]

/-- C3 at the startup state: the bytes `r`, `e`, `d` at times 0, 1, 2 print nothing, and
`'\n'` at time 3 then prints `ok (red)`. -/
theorem C3_command_then_terminator_witness :
    (∀ k, ∃ sk, run init ([(some 114, 0), (some 101, 1), (some 100, 2)].take k) = some sk ∧
      sk.serial = init.serial) ∧
    ∃ s1 s2, run init [(some 114, 0), (some 101, 1), (some 100, 2)] = some s1 ∧
      tick s1 (some 10) 3 = some s2 ∧
      run init ([(some 114, 0), (some 101, 1), (some 100, 2)] ++ [(some 10, 3)]) = some s2 ∧
      s2.serial = init.serial ++ ["ok (" ++ "red" ++ ")"] :=
  C3_command_then_terminator init rfl rfl "red" (by decide) 10 (Or.inl rfl)
    [(some 114, 0), (some 101, 1), (some 100, 2)] (by decide) 3

/-! ## Staleness -/

theorem cleared_tick (s s' : State) (avail : Option Nat) (now : Nat)
    (hinv : s.cleared = true → s.cursor = 0) (h : tick s avail now = some s') :
    s'.cleared = true → s'.cursor = 0 := by
  cases avail with
  | none =>
    rw [tick_idle] at h
    simp only [Option.some.injEq] at h
    subst h
    by_cases hs : elapsed now s.last_read > 1000 ∧ s.cursor ≠ 0
    · rw [staleCheck_stale s now hs.1 hs.2]
      intro _
      rfl
    · rw [staleCheck_fresh s now hs]
      exact hinv
  | some b =>
    by_cases hb : b % 256 = 10 ∨ b % 256 = 13
    · rw [tick_terminator s b now hb] at h
      simp only [Option.some.injEq] at h
      subst h
      intro _
      rfl
    · by_cases hc : s.cursor < 255
      · rw [tick_byte s b now hb hc] at h
        simp only [Option.some.injEq] at h
        subst h
        intro hcl
        simp at hcl
      · rw [tick_overflow s b now hb hc] at h
        simp at h

theorem cleared_run (ticks : List (Option Nat × Nat)) (s s' : State)
    (hinv : s.cleared = true → s.cursor = 0) (h : run s ticks = some s') :
    s'.cleared = true → s'.cursor = 0 := by
  induction ticks generalizing s with
  | nil =>
    simp only [run, Option.some.injEq] at h
    subst h
    exact hinv
  | cons x xs ih =>
    obtain ⟨avail, now⟩ := x
    cases ht : tick s avail now with
    | none => simp [run, ht] at h
    | some s1 =>
      rw [run_cons s avail now xs s1 ht] at h
      exact ih s1 (cleared_tick s s1 avail now hinv ht) h

theorem cleared_reachable (s : State) (hr : Reachable s) : s.cleared = true → s.cursor = 0 := by
  obtain ⟨ticks, h⟩ := hr
  exact cleared_run ticks init s (fun _ => rfl) h

theorem run_idle_fresh (times : List Nat) (s : State)
    (h : ∀ u ∈ times, ¬ (elapsed u s.last_read > 1000 ∧ s.cursor ≠ 0)) :
    run s (idle times) = some s := by
  induction times with
  | nil => rfl
  | cons u us ih =>
    have hu := h u (List.mem_cons_self _ _)
    have ht : tick s none u = some s := by rw [tick_idle, staleCheck_fresh s u hu]
    show run s ((none, u) :: idle us) = some s
    rw [run_cons s none u (idle us) s ht]
    exact ih (fun v hv => h v (List.mem_cons_of_mem _ hv))

theorem idle_append (xs ys : List Nat) : idle (xs ++ ys) = idle xs ++ idle ys := by
  simp [idle]

theorem first_stale (last : Nat) (times : List Nat)
    (h : ∃ u ∈ times, elapsed u last > 1000) :
    ∃ before t after, times = before ++ t :: after ∧
      (∀ u ∈ before, elapsed u last ≤ 1000) ∧ elapsed t last > 1000 := by
  induction times with
  | nil => simp at h
  | cons v vs ih =>
    by_cases hv : elapsed v last > 1000
    · exact ⟨[], v, vs, rfl, by simp, hv⟩
    · obtain ⟨u, hu, hst⟩ := h
      have hu' : u ∈ vs := by
        rcases List.mem_cons.1 hu with e | e
        · subst e; exact absurd hst hv
        · exact e
      obtain ⟨before, t, after, e, hb, ht⟩ := ih ⟨u, hu', hst⟩
      refine ⟨v :: before, t, after, by rw [e]; rfl, ?_, ht⟩
      intro w hw
      rcases List.mem_cons.1 hw with e' | e'
      · subst e'; omega
      · exact hb w e'

/-- C4: from every reachable state with cursor ≠ 0, over any run of idle ticks (no byte
available) in which some tick has `now - last_read > 1000`: the run splits at the first such
tick `t`; the idle ticks before it leave the state as it is; tick `t` prints `error` once,
sets the cursor to 0 and zeroes the whole buffer; and after every further idle tick of the
run the state is still that one, so `error` is printed exactly once in the whole run. (The
times need not even be non-decreasing.) -/
theorem C4_stale_error_once (s : State) (hr : Reachable s) (hc : s.cursor ≠ 0)
    (times : List Nat) (hstale : ∃ u ∈ times, elapsed u s.last_read > 1000) :
    ∃ before t after s1, times = before ++ t :: after ∧
      (∀ u ∈ before, elapsed u s.last_read ≤ 1000) ∧ elapsed t s.last_read > 1000 ∧
      (∀ k, run s (idle (before.take k)) = some s) ∧
      s1 = { s with cursor := 0, buffer := zeroBuffer, cleared := true,
                    serial := s.serial ++ ["error"] } ∧
      run s (idle (before ++ [t])) = some s1 ∧
      (∀ k, run s (idle (before ++ t :: after.take k)) = some s1) ∧
      run s (idle times) = some s1 := by
  obtain ⟨before, t, after, e, hb, ht⟩ := first_stale s.last_read times hstale
  have hcl : s.cleared = false := by
    cases h : s.cleared with
    | false => rfl
    | true => exact absurd (cleared_reachable s hr h) hc
  have hpre : ∀ k, run s (idle (before.take k)) = some s := fun k =>
    run_idle_fresh (before.take k) s
      (fun u hu hst => absurd hst.1 (by have := hb u (List.mem_of_mem_take hu); omega))
  have hbefore : run s (idle before) = some s := by
    have := hpre before.length
    rwa [List.take_length] at this
  have htick : tick s none t =
      some { s with cursor := 0, buffer := zeroBuffer, cleared := true,
                    serial := s.serial ++ ["error"] } := by
    rw [tick_idle, staleCheck_stale s t ht hc, hcl]
    rfl
  have hrest : ∀ us : List Nat, run s (idle (before ++ t :: us)) =
      some { s with cursor := 0, buffer := zeroBuffer, cleared := true,
                    serial := s.serial ++ ["error"] } := by
    intro us
    rw [idle_append, run_append (idle before) _ s s hbefore]
    show run s ((none, t) :: idle us) = _
    rw [run_cons s none t (idle us) _ htick]
    exact run_idle_fresh us _ (fun u _ hst => hst.2 rfl)
  refine ⟨before, t, after, _, e, hb, ht, hpre, rfl, ?_, fun k => hrest _, ?_⟩
  · have := hrest []
    simpa using this
  · rw [e]
    exact hrest after

set_option maxRecDepth 100000 in
theorem afterRE_run : run init [(some 114, 0), (some 101, 1)] = some afterRE := by
  decide

/-- C4 after the bytes `r`, `e` (at times 0 and 1), over idle ticks at times 500, 1001,
1002 and 5000: the first stale tick is the one at time 1002. -/
theorem C4_stale_error_once_witness :
    ∃ before t after s1, [500, 1001, 1002, 5000] = before ++ t :: after ∧
      (∀ u ∈ before, elapsed u afterRE.last_read ≤ 1000) ∧
      elapsed t afterRE.last_read > 1000 ∧
      (∀ k, run afterRE (idle (before.take k)) = some afterRE) ∧
      s1 = { afterRE with cursor := 0, buffer := zeroBuffer, cleared := true,
                          serial := afterRE.serial ++ ["error"] } ∧
      run afterRE (idle (before ++ [t])) = some s1 ∧
      (∀ k, run afterRE (idle (before ++ t :: after.take k)) = some s1) ∧
      run afterRE (idle [500, 1001, 1002, 5000]) = some s1 :=
  C4_stale_error_once afterRE ⟨[(some 114, 0), (some 101, 1)], afterRE_run⟩ (by decide)
    [500, 1001, 1002, 5000] ⟨1002, by decide, by decide⟩

/-! ## The write position -/

/-- C5, evaluated at 256 bytes `a` (97) arriving on consecutive ticks after startup, with no
terminator: the first 255 are stored at indices 0 to 254, which fills the buffer (no zero
byte is left in it) and brings the cursor to 255; the 256th is then written at index 255,
outside the 255-byte array, so the run has no defined result. -/
theorem C5_write_past_capacity :
    ∃ s, run init (List.replicate 255 (some 97, 0)) = some s ∧ s.cursor = 255 ∧
      s.buffer.toList = List.replicate 255 97 ∧
      ¬ s.cursor < 255 ∧
      tick s (some 97) 0 = none ∧
      run init (List.replicate 256 (some 97, 0)) = none := by
  obtain ⟨s, hrun, hcur, hbuf, _, _, _⟩ :=
    run_bytes_clear (List.replicate 255 97) (List.replicate 255 (some 97, 0)) init
      (by rw [List.map_replicate, List.map_replicate])
      (by intro b hb; rw [List.eq_of_mem_replicate hb]; decide) rfl rfl
      (by rw [List.length_replicate])
  rw [List.length_replicate] at hcur hbuf
  rw [Nat.sub_self, List.replicate_zero, List.append_nil] at hbuf
  have hover : tick s (some 97) 0 = none :=
    tick_overflow s 97 0 (by decide) (by omega)
  refine ⟨s, hrun, hcur, hbuf, by omega, hover, ?_⟩
  have e : List.replicate 256 ((some 97, 0) : Option Nat × Nat)
      = List.replicate 255 (some 97, 0) ++ [(some 97, 0)] :=
    List.replicate_succ' 255 (some 97, 0)
  rw [e, run_append _ _ init s hrun]
  show (match tick s (some 97) 0 with
    | some s' => run s' []
    | none => none) = none
  rw [hover]

/-! ## After a terminator -/

/-- C6: for every state and every tick that delivers a terminator byte (`'\n'` is 10,
`'\r'` is 13), whatever the buffer held, the tick has a result, and in it the cursor is 0
and all 255 buffer bytes are zero; so the next non-terminator byte accepted is written at
index 0 of a clear buffer. -/
theorem C6_reset_after_dispatch (s : State) (b now : Nat) (hb : b = 10 ∨ b = 13) :
    ∃ s', tick s (some b) now = some s' ∧ s'.cursor = 0 ∧ s'.buffer = zeroBuffer ∧
      (∀ i, s'.buffer.get i = 0) ∧
      ∀ b' now', b' < 256 → b' ≠ 10 → b' ≠ 13 →
        ∃ s'', tick s' (some b') now' = some s'' ∧ s''.cursor = 1 ∧
          s''.buffer = zeroBuffer.set 0 b' := by
  have hterm : b % 256 = 10 ∨ b % 256 = 13 := by omega
  refine ⟨_, tick_terminator s b now hterm, rfl, rfl, ?_, ?_⟩
  · intro i
    exact Mathlib.Vector.get_replicate 0 i
  · intro b' now' h256 h10 h13
    have hmod : b' % 256 = b' := Nat.mod_eq_of_lt h256
    have hnt : ¬ (b' % 256 = 10 ∨ b' % 256 = 13) := by omega
    refine ⟨_, tick_byte _ b' now' hnt (by show 0 < 255; omega), rfl, ?_⟩
    show zeroBuffer.set ⟨0, _⟩ (b' % 256) = zeroBuffer.set 0 b'
    rw [hmod]
    rfl

/-- C6 at a successful dispatch (the buffer holds `red`, terminator `'\n'`) and at a failed
one (the buffer holds `re`, terminator `'\r'`). -/
theorem C6_reset_after_dispatch_witness :
    (∃ s', tick { (holding "red") with cursor := 3 } (some 10) 7 = some s' ∧ s'.cursor = 0 ∧
      s'.buffer = zeroBuffer ∧ (∀ i, s'.buffer.get i = 0) ∧
      ∀ b' now', b' < 256 → b' ≠ 10 → b' ≠ 13 →
        ∃ s'', tick s' (some b') now' = some s'' ∧ s''.cursor = 1 ∧
          s''.buffer = zeroBuffer.set 0 b') ∧
    (∃ s', tick afterRE (some 13) 7 = some s' ∧ s'.cursor = 0 ∧
      s'.buffer = zeroBuffer ∧ (∀ i, s'.buffer.get i = 0) ∧
      ∀ b' now', b' < 256 → b' ≠ 10 → b' ≠ 13 →
        ∃ s'', tick s' (some b') now' = some s'' ∧ s''.cursor = 1 ∧
          s''.buffer = zeroBuffer.set 0 b') :=
  ⟨C6_reset_after_dispatch { (holding "red") with cursor := 3 } 10 7 (Or.inl rfl),
   C6_reset_after_dispatch afterRE 13 7 (Or.inr rfl)⟩

/-! ## Idempotence of dispatch -/

theorem process_frame (s : State) :
    (process s).buffer = s.buffer ∧ (process s).cursor = s.cursor ∧
      (process s).last_read = s.last_read ∧ (process s).cleared = s.cleared := by
  unfold process
  split_ifs <;> exact ⟨rfl, rfl, rfl, rfl⟩

/-- C7: for every state and each of the five commands `c` held by the buffer, running
`process()` twice in a row leaves the same strip colours and the same indicator as running
it once, and the output gains two separate `ok (c)` lines. -/
theorem C7_process_idempotent (s : State) (c : String) (hc : c ∈ names)
    (h : text s.buffer = bytes c) :
    (process (process s)).pixels = (process s).pixels ∧
    (process (process s)).led = (process s).led ∧
    (process s).serial = s.serial ++ ["ok (" ++ c ++ ")"] ∧
    (process (process s)).serial = s.serial ++ ["ok (" ++ c ++ ")", "ok (" ++ c ++ ")"] := by
  have h' : text (process s).buffer = bytes c := by rw [(process_frame s).1]; exact h
  have hser1 := process_ack s c hc h
  have hser2 := process_ack (process s) c hc h'
  refine ⟨?_, ?_, hser1, by rw [hser2, hser1]; simp⟩
  · rcases names_cases c hc with e | e | e | e | e <;> subst e
    · have e1 := process_on s h
      have e2 := process_on _ h'
      rw [e1] at e2 ⊢
      rw [e2]
    · have e1 := process_red s h
      have e2 := process_red _ h'
      rw [e1] at e2 ⊢
      rw [e2]
    · have e1 := process_green s h
      have e2 := process_green _ h'
      rw [e1] at e2 ⊢
      rw [e2]
    · have e1 := process_blue s h
      have e2 := process_blue _ h'
      rw [e1] at e2 ⊢
      rw [e2]
    · have e1 := process_off s h
      have e2 := process_off _ h'
      rw [e1] at e2 ⊢
      rw [e2]
  · rcases names_cases c hc with e | e | e | e | e <;> subst e
    · have e1 := process_on s h
      have e2 := process_on _ h'
      rw [e1] at e2 ⊢
      rw [e2]
    · have e1 := process_red s h
      have e2 := process_red _ h'
      rw [e1] at e2 ⊢
      rw [e2]
    · have e1 := process_green s h
      have e2 := process_green _ h'
      rw [e1] at e2 ⊢
      rw [e2]
    · have e1 := process_blue s h
      have e2 := process_blue _ h'
      rw [e1] at e2 ⊢
      rw [e2]
    · have e1 := process_off s h
      have e2 := process_off _ h'
      rw [e1] at e2 ⊢
      rw [e2]

/-- C7 at `off`, from the startup devices. -/
theorem C7_process_idempotent_witness :
    (process (process (holding "off"))).pixels = (process (holding "off")).pixels ∧
    (process (process (holding "off"))).led = (process (holding "off")).led ∧
    (process (holding "off")).serial = (holding "off").serial ++ ["ok (" ++ "off" ++ ")"] ∧
    (process (process (holding "off"))).serial
      = (holding "off").serial ++ ["ok (" ++ "off" ++ ")", "ok (" ++ "off" ++ ")"] :=
  C7_process_idempotent (holding "off") "off" (by decide) (by decide)

/-! ## Idle ticks -/

/-- C8: an idle tick (no byte available) changes the state or prints if and only if
cursor ≠ 0 and `now - last_read > 1000`. With cursor = 0, or with an elapsed time of at
most 1000, the tick returns the state as it was (buffer, cursor, `last_read`, flag, output
and devices); with cursor ≠ 0 and an elapsed time above 1000 the partial command is reset:
cursor 0, buffer zeroed, flag set, and `error` printed unless the flag was already set. -/
theorem C8_idle_tick (s : State) (now : Nat) :
    (tick s none now ≠ some s ↔ (s.cursor ≠ 0 ∧ elapsed now s.last_read > 1000)) ∧
    (s.cursor = 0 ∨ elapsed now s.last_read ≤ 1000 → tick s none now = some s) ∧
    (s.cursor ≠ 0 → elapsed now s.last_read > 1000 →
      tick s none now =
        some { s with cursor := 0, buffer := zeroBuffer, cleared := true,
                      serial := if s.cleared then s.serial else s.serial ++ ["error"] }) := by
  have hfresh : s.cursor = 0 ∨ elapsed now s.last_read ≤ 1000 → tick s none now = some s := by
    intro h
    rw [tick_idle, staleCheck_fresh s now (by omega)]
  have hstale : s.cursor ≠ 0 → elapsed now s.last_read > 1000 →
      tick s none now =
        some { s with cursor := 0, buffer := zeroBuffer, cleared := true,
                      serial := if s.cleared then s.serial else s.serial ++ ["error"] } := by
    intro hc h
    rw [tick_idle, staleCheck_stale s now h hc]
  refine ⟨⟨?_, ?_⟩, hfresh, hstale⟩
  · intro hne
    by_contra hcon
    exact hne (hfresh (by omega))
  · rintro ⟨hc, h⟩ heq
    rw [hstale hc h] at heq
    have hcur := congrArg State.cursor (Option.some.inj heq)
    exact hc hcur.symm

/-- C8 after the bytes `r`, `e` (`last_read` is 1): an idle tick at time 1001 (elapsed
exactly 1000) changes nothing, one at time 1002 (elapsed 1001) resets the partial command;
and at startup (cursor 0) an idle tick at time 5000 changes nothing. -/
theorem C8_idle_tick_witness :
    ((afterRE.cursor = 0 ∨ elapsed 1001 afterRE.last_read ≤ 1000) ∧
      tick afterRE none 1001 = some afterRE) ∧
    ((init.cursor = 0 ∨ elapsed 5000 init.last_read ≤ 1000) ∧
      tick init none 5000 = some init) ∧
    (afterRE.cursor ≠ 0 ∧ elapsed 1002 afterRE.last_read > 1000 ∧
      tick afterRE none 1002 =
        some { afterRE with cursor := 0, buffer := zeroBuffer, cleared := true,
                            serial := if afterRE.cleared then afterRE.serial
                                      else afterRE.serial ++ ["error"] }) :=
  ⟨⟨by decide, (C8_idle_tick afterRE 1001).2.1 (by decide)⟩,
   ⟨by decide, (C8_idle_tick init 5000).2.1 (by decide)⟩,
   ⟨by decide, by decide, (C8_idle_tick afterRE 1002).2.2 (by decide) (by decide)⟩⟩

/-! ## Byte ticks -/

/-- C9: a tick delivering a non-terminator byte `b` at time `now`, from a state with
cursor < 255 and whatever `last_read` is, has a result that differs from the state before
exactly by `buffer[cursor] := b`, `cursor := cursor + 1`, `last_read := now`,
`cleared := false`: nothing is printed, every other buffer byte, the strip and the indicator
are as before. A tick delivering a terminator likewise sets `last_read := now` and
`cleared := false`. -/
theorem C9_byte_tick (s : State) (now : Nat) (hnow : now < 2 ^ 32) :
    (∀ (b : Nat) (hc : s.cursor < 255), b < 256 → b ≠ 10 → b ≠ 13 →
      ∃ s', tick s (some b) now = some s' ∧
        s' = { s with buffer := s.buffer.set ⟨s.cursor, hc⟩ b, cursor := s.cursor + 1,
                      last_read := now, cleared := false } ∧
        s'.serial = s.serial ∧ s'.pixels = s.pixels ∧ s'.led = s.led ∧
        s'.buffer.get ⟨s.cursor, hc⟩ = b ∧
        ∀ j, j ≠ ⟨s.cursor, hc⟩ → s'.buffer.get j = s.buffer.get j) ∧
    (∀ t, t = 10 ∨ t = 13 →
      ∃ s', tick s (some t) now = some s' ∧ s'.last_read = now ∧ s'.cleared = false) := by
  have hmodn : now % 2 ^ 32 = now := Nat.mod_eq_of_lt hnow
  constructor
  · intro b hc h256 h10 h13
    have hmod : b % 256 = b := Nat.mod_eq_of_lt h256
    have hnt : ¬ (b % 256 = 10 ∨ b % 256 = 13) := by omega
    have ht := tick_byte s b now hnt hc
    rw [hmod, hmodn] at ht
    refine ⟨_, ht, rfl, rfl, rfl, rfl, ?_, ?_⟩
    · exact Mathlib.Vector.get_set_same _ _ _
    · intro j hj
      exact Mathlib.Vector.get_set_of_ne (Ne.symm hj) _
  · intro t ht
    have hterm : t % 256 = 10 ∨ t % 256 = 13 := by omega
    refine ⟨_, tick_terminator s t now hterm, ?_, ?_⟩
    · show (process { s with last_read := now % 2 ^ 32, cleared := false }).last_read = now
      rw [(process_frame _).2.2.1]
      exact hmodn
    · show (process { s with last_read := now % 2 ^ 32, cleared := false }).cleared = false
      rw [(process_frame _).2.2.2]

/-- C9 after the bytes `r`, `e` (`last_read` is 1): the byte `d` (100) arriving at time
1000000, long after the previous one, is stored at index 2 without any reset or output; a
`'\n'` at that time sets `last_read` and clears the flag. -/
theorem C9_byte_tick_witness :
    (1000000 < 2 ^ 32 ∧ afterRE.cursor < 255 ∧ 100 < 256 ∧
      ∃ s', tick afterRE (some 100) 1000000 = some s' ∧
        s'.cursor = 3 ∧ s'.last_read = 1000000 ∧ s'.cleared = false ∧
        s'.serial = afterRE.serial ∧ s'.buffer.get 2 = 100) ∧
    (∃ s', tick afterRE (some 10) 1000000 = some s' ∧ s'.last_read = 1000000 ∧
      s'.cleared = false) := by
  have h := C9_byte_tick afterRE 1000000 (by decide)
  refine ⟨⟨by decide, by decide, by decide, ?_⟩, h.2 10 (Or.inl rfl)⟩
  obtain ⟨s', ht, he, hser, _, _, hget, _⟩ :=
    h.1 100 (by decide) (by decide) (by decide) (by decide)
  refine ⟨s', ht, ?_, ?_, ?_, hser, hget⟩
  · rw [he]; rfl
  · rw [he]
  · rw [he]

/-! ## What touches the devices -/

theorem takeWhile_padded (bs : List Nat) (n : Nat) :
    (bs ++ List.replicate n 0).takeWhile (fun c => c ≠ 0)
      = bs.takeWhile (fun c => c ≠ 0) := by
  induction bs with
  | nil =>
    cases n with
    | zero => rfl
    | succ m => simp [List.replicate_succ, List.takeWhile]
  | cons b bs ih =>
    by_cases hb : b = 0
    · simp [List.takeWhile, hb]
    · simp only [List.cons_append, List.takeWhile_cons, ih]

theorem takeWhile_no_zero (bs : List Nat) (h : 0 ∉ bs) :
    bs.takeWhile (fun c => c ≠ 0) = bs := by
  induction bs with
  | nil => rfl
  | cons b bs ih =>
    have hb : b ≠ 0 := fun e => h (by rw [e]; exact List.mem_cons_self _ _)
    have hbs : 0 ∉ bs := fun e => h (List.mem_cons_of_mem _ e)
    rw [List.takeWhile_cons, ih hbs]
    simp [hb]

theorem mem_commands (l : List Nat) : l ∈ commands ↔ ∃ c ∈ names, l = bytes c := by
  simp [commands, names]

theorem ack_injective (c c' : String) (hc : c ∈ names) (hc' : c' ∈ names)
    (h : "ok (" ++ c ++ ")" = "ok (" ++ c' ++ ")") : c = c' := by
  rcases names_cases c hc with e | e | e | e | e <;>
    rcases names_cases c' hc' with e' | e' | e' | e' | e' <;>
    subst e <;> subst e' <;> first | rfl | exact absurd h (by decide)

theorem ack_ne_failed (c : String) (hc : c ∈ names) : "failed" ≠ "ok (" ++ c ++ ")" := by
  rcases names_cases c hc with e | e | e | e | e <;> subst e <;> decide

theorem append_line_cancel (out : List String) (x y : String)
    (h : out ++ [x] = out ++ [y]) : x = y := by
  have := List.append_cancel_left h
  simpa using this

/-- The buffer after feeding the non-terminator bytes `bs` (at most 254) to a state with
cursor 0 and an all-zero buffer holds the text of `bs`: its bytes before the first zero. -/
theorem run_bytes_text (bs : List Nat) (ticks : List (Option Nat × Nat)) (s : State)
    (hmap : ticks.map Prod.fst = bs.map some)
    (hbs : ∀ b ∈ bs, b < 256 ∧ b ≠ 10 ∧ b ≠ 13)
    (hcur : s.cursor = 0) (hbuf : s.buffer = zeroBuffer) (hlen : bs.length ≤ 254) :
    ∃ s', run s ticks = some s' ∧ s'.cursor = bs.length ∧
      text s'.buffer = bs.takeWhile (fun c => c ≠ 0) ∧
      s'.serial = s.serial ∧ s'.pixels = s.pixels ∧ s'.led = s.led := by
  obtain ⟨s', hrun, hc', hb', hser, hpix, hled⟩ :=
    run_bytes_clear bs ticks s hmap hbs hcur hbuf (by omega)
  refine ⟨s', hrun, hc', ?_, hser, hpix, hled⟩
  unfold text
  rw [hb', takeWhile_padded]

set_option maxRecDepth 100000 in
/-- C11 as stated fails when a zero byte is received: the four bytes `r`, `e`, `d`, `0` are
not a command, yet the terminator after them prints `ok (red)` (not `failed`) and turns the
strip red. -/
theorem C11_zero_byte_counterexample :
    ([114, 101, 100, 0] : List Nat) ≠ bytes "red" ∧
    ([114, 101, 100, 0] : List Nat) ∉ commands ∧
    ([114, 101, 100, 0] : List Nat).length ≤ 254 ∧
    (∀ b ∈ ([114, 101, 100, 0] : List Nat), b < 256 ∧ b ≠ 10 ∧ b ≠ 13) ∧
    (run init [(some 114, 0), (some 101, 1), (some 100, 2), (some 0, 3),
        (some 10, 4)]).map State.serial = some ["ok (red)"] ∧
    (run init [(some 114, 0), (some 101, 1), (some 100, 2), (some 0, 3),
        (some 10, 4)]).map State.pixels = some (filled (Color 255 0 0)) := by
  decide

/-- C11, amended: for every sequence `bs` of at most 254 bytes, none of them `'\n'` or
`'\r'`, received one per tick from a state with cursor 0 and an all-zero buffer and then
followed by a terminator, the terminator tick prints `ok (c)` if and only if the received
bytes before the first zero byte (all of `bs` when it has no zero byte) are exactly the
command `c`, and prints `failed` with strip and indicator unchanged when those bytes are
not a command. In particular, for a sequence without a zero byte the match is exact on
what was received. -/
theorem C11_match_up_to_zero (s : State) (hcur : s.cursor = 0) (hbuf : s.buffer = zeroBuffer)
    (bs : List Nat) (hlen : bs.length ≤ 254) (hbs : ∀ b ∈ bs, b < 256 ∧ b ≠ 10 ∧ b ≠ 13)
    (ticks : List (Option Nat × Nat)) (hticks : ticks.map Prod.fst = bs.map some)
    (t : Nat) (ht : t = 10 ∨ t = 13) (now : Nat) :
    ∃ s1 s2, run s ticks = some s1 ∧ tick s1 (some t) now = some s2 ∧
      (∀ c ∈ names, s2.serial = s.serial ++ ["ok (" ++ c ++ ")"] ↔
        bs.takeWhile (fun b => b ≠ 0) = bytes c) ∧
      (bs.takeWhile (fun b => b ≠ 0) ∉ commands →
        s2.serial = s.serial ++ ["failed"] ∧ s2.pixels = s.pixels ∧ s2.led = s.led) ∧
      (0 ∉ bs →
        (∀ c ∈ names, s2.serial = s.serial ++ ["ok (" ++ c ++ ")"] ↔ bs = bytes c) ∧
        (bs ∉ commands →
          s2.serial = s.serial ++ ["failed"] ∧ s2.pixels = s.pixels ∧ s2.led = s.led)) := by
  obtain ⟨s1, hrun, _, htext, hser, hpix, hled⟩ :=
    run_bytes_text bs ticks s hticks hbs hcur hbuf hlen
  have hterm : t % 256 = 10 ∨ t % 256 = 13 := by omega
  have htick := tick_terminator s1 t now hterm
  have hfail : bs.takeWhile (fun b => b ≠ 0) ∉ commands →
      (process { s1 with last_read := now % 2 ^ 32, cleared := false }).serial
          = s.serial ++ ["failed"] ∧
        (process { s1 with last_read := now % 2 ^ 32, cleared := false }).pixels = s.pixels ∧
        (process { s1 with last_read := now % 2 ^ 32, cleared := false }).led = s.led := by
    intro hn
    have hn' : text ({ s1 with last_read := now % 2 ^ 32, cleared := false } : State).buffer
        ∉ commands := by
      show text s1.buffer ∉ commands
      rw [htext]
      exact hn
    rw [process_failed _ hn']
    exact ⟨by show s1.serial ++ _ = _; rw [hser], hpix, hled⟩
  have hack : ∀ c ∈ names,
      ((process { s1 with last_read := now % 2 ^ 32, cleared := false }).serial
          = s.serial ++ ["ok (" ++ c ++ ")"] ↔
        bs.takeWhile (fun b => b ≠ 0) = bytes c) := by
    intro c hc
    constructor
    · intro hout
      by_cases hmem : bs.takeWhile (fun b => b ≠ 0) ∈ commands
      · obtain ⟨c', hc', e⟩ := (mem_commands _).1 hmem
        have h' := process_ack { s1 with last_read := now % 2 ^ 32, cleared := false } c' hc'
          (by show text s1.buffer = bytes c'; rw [htext, e])
        rw [h'] at hout
        have hout' : s.serial ++ ["ok (" ++ c' ++ ")"] = s.serial ++ ["ok (" ++ c ++ ")"] := by
          rw [← hout]
          show _ = s1.serial ++ _
          rw [hser]
        rw [← ack_injective c' c hc' hc (append_line_cancel _ _ _ hout')]
        exact e
      · rw [(hfail hmem).1] at hout
        exact absurd (append_line_cancel _ _ _ hout) (ack_ne_failed c hc)
    · intro e
      have h' := process_ack { s1 with last_read := now % 2 ^ 32, cleared := false } c hc
        (by show text s1.buffer = bytes c; rw [htext, e])
      rw [h']
      show s1.serial ++ _ = _
      rw [hser]
  refine ⟨s1, _, hrun, htick, hack, hfail, ?_⟩
  intro hz
  have e := takeWhile_no_zero bs hz
  rw [e] at hack hfail
  exact ⟨hack, hfail⟩

set_option maxRecDepth 100000 in
/-- C11 (amended) at the startup state with the received bytes `r`, `e`, `d`, `0`, `x`
followed by `'\n'`: the bytes before the first zero byte are `red`. -/
theorem C11_match_up_to_zero_witness :
    ∃ s1 s2,
      run init [(some 114, 0), (some 101, 1), (some 100, 2), (some 0, 3), (some 120, 4)]
        = some s1 ∧
      tick s1 (some 10) 5 = some s2 ∧
      (∀ c ∈ names, s2.serial = init.serial ++ ["ok (" ++ c ++ ")"] ↔
        ([114, 101, 100, 0, 120] : List Nat).takeWhile (fun b => b ≠ 0) = bytes c) ∧
      (([114, 101, 100, 0, 120] : List Nat).takeWhile (fun b => b ≠ 0) ∉ commands →
        s2.serial = init.serial ++ ["failed"] ∧ s2.pixels = init.pixels ∧
          s2.led = init.led) ∧
      (0 ∉ ([114, 101, 100, 0, 120] : List Nat) →
        (∀ c ∈ names, s2.serial = init.serial ++ ["ok (" ++ c ++ ")"] ↔
          ([114, 101, 100, 0, 120] : List Nat) = bytes c) ∧
        (([114, 101, 100, 0, 120] : List Nat) ∉ commands →
          s2.serial = init.serial ++ ["failed"] ∧ s2.pixels = init.pixels ∧
            s2.led = init.led)) :=
  C11_match_up_to_zero init rfl rfl [114, 101, 100, 0, 120] (by decide) (by decide)
    [(some 114, 0), (some 101, 1), (some 100, 2), (some 0, 3), (some 120, 4)] (by decide)
    10 (Or.inl rfl) 5

/-! ## The empty line -/

theorem text_zeroBuffer : text zeroBuffer = [] := by
  unfold text
  have h := takeWhile_padded [] 255
  exact h

theorem tick_empty_line (s : State) (hbuf : s.buffer = zeroBuffer) (t : Nat)
    (ht : t % 256 = 10 ∨ t % 256 = 13) (now : Nat) :
    tick s (some t) now =
      some { s with cursor := 0, last_read := now % 2 ^ 32, cleared := false,
                    serial := s.serial ++ ["failed"] } := by
  have hn : text ({ s with last_read := now % 2 ^ 32, cleared := false } : State).buffer
      ∉ commands := by
    show text s.buffer ∉ commands
    rw [hbuf, text_zeroBuffer]
    decide
  rw [tick_terminator s t now ht, process_failed _ hn]
  cases s
  simp only at hbuf
  subst hbuf
  rfl

/-- C12: a terminator byte received while the cursor is 0 and the buffer is all zero
dispatches the empty line: the tick prints exactly `failed`, changes neither strip nor
indicator, and leaves the cursor at 0 and the buffer clear. Consequently a command `c`
received from such a state and terminated by the two bytes `'\r'` `'\n'` produces `ok (c)`
followed by `failed`. -/
theorem C12_empty_line_failed (s : State) (hcur : s.cursor = 0) (hbuf : s.buffer = zeroBuffer) :
    (∀ t now, t = 10 ∨ t = 13 →
      ∃ s', tick s (some t) now = some s' ∧ s'.serial = s.serial ++ ["failed"] ∧
        s'.pixels = s.pixels ∧ s'.led = s.led ∧ s'.cursor = 0 ∧ s'.buffer = zeroBuffer) ∧
    (∀ c ∈ names, ∀ (ticks : List (Option Nat × Nat)) (now₁ now₂ : Nat),
      ticks.map Prod.fst = (bytes c).map some →
      ∃ s1 s2 s3, run s ticks = some s1 ∧ s1.serial = s.serial ∧
        tick s1 (some 13) now₁ = some s2 ∧ s2.serial = s.serial ++ ["ok (" ++ c ++ ")"] ∧
        tick s2 (some 10) now₂ = some s3 ∧
        s3.serial = s.serial ++ ["ok (" ++ c ++ ")", "failed"] ∧
        run s (ticks ++ [(some 13, now₁), (some 10, now₂)]) = some s3) := by
  constructor
  · intro t now ht
    have hterm : t % 256 = 10 ∨ t % 256 = 13 := by omega
    refine ⟨_, tick_empty_line s hbuf t hterm now, rfl, rfl, rfl, rfl, ?_⟩
    exact hbuf
  · intro c hc ticks now₁ now₂ hticks
    obtain ⟨hnt, hnz, hlen⟩ := bytes_names c hc
    obtain ⟨s1, hrun, _, htext, hser, _, _⟩ :=
      run_bytes_text (bytes c) ticks s hticks hnt hcur hbuf (by omega)
    rw [takeWhile_no_zero (bytes c) (fun h0 => hnz 0 h0 rfl)] at htext
    have ht1 := tick_terminator s1 13 now₁ (Or.inr rfl)
    have hack := process_ack { s1 with last_read := now₁ % 2 ^ 32, cleared := false } c hc htext
    have hser2 : (process { s1 with last_read := now₁ % 2 ^ 32, cleared := false }).serial
        = s.serial ++ ["ok (" ++ c ++ ")"] := by
      rw [hack]
      show s1.serial ++ _ = _
      rw [hser]
    have ht2 := tick_empty_line
      { process { s1 with last_read := now₁ % 2 ^ 32, cleared := false } with
          cursor := 0, buffer := zeroBuffer } rfl 10 (Or.inl rfl) now₂
    refine ⟨s1, _, _, hrun, hser, ht1, hser2, ht2, ?_, ?_⟩
    · show (process { s1 with last_read := now₁ % 2 ^ 32, cleared := false }).serial
          ++ ["failed"] = _
      rw [hser2]
      simp
    · rw [run_append ticks _ s s1 hrun, run_cons s1 (some 13) now₁ _ _ ht1,
        run_cons _ (some 10) now₂ [] _ ht2]
      rfl

/-- C12 at the startup state: a lone `'\n'` prints `failed`, and `r`, `e`, `d`, `'\r'`,
`'\n'` prints `ok (red)` followed by `failed`. -/
theorem C12_empty_line_failed_witness :
    (∃ s', tick init (some 10) 0 = some s' ∧ s'.serial = init.serial ++ ["failed"] ∧
      s'.pixels = init.pixels ∧ s'.led = init.led ∧ s'.cursor = 0 ∧
      s'.buffer = zeroBuffer) ∧
    (∃ s1 s2 s3, run init [(some 114, 0), (some 101, 1), (some 100, 2)] = some s1 ∧
      s1.serial = init.serial ∧
      tick s1 (some 13) 3 = some s2 ∧ s2.serial = init.serial ++ ["ok (" ++ "red" ++ ")"] ∧
      tick s2 (some 10) 4 = some s3 ∧
      s3.serial = init.serial ++ ["ok (" ++ "red" ++ ")", "failed"] ∧
      run init ([(some 114, 0), (some 101, 1), (some 100, 2)] ++ [(some 13, 3), (some 10, 4)])
        = some s3) :=
  ⟨(C12_empty_line_failed init rfl rfl).1 10 0 (Or.inl rfl),
   (C12_empty_line_failed init rfl rfl).2 "red" (by decide)
     [(some 114, 0), (some 101, 1), (some 100, 2)] 3 4 (by decide)⟩

/-! ## The unused part of the buffer -/

theorem reachable_tick (s s' : State) (avail : Option Nat) (now : Nat) (hr : Reachable s)
    (h : tick s avail now = some s') : Reachable s' := by
  obtain ⟨ticks, h0⟩ := hr
  refine ⟨ticks ++ [(avail, now)], ?_⟩
  rw [run_append ticks _ init s h0, run_cons s avail now [] s' h]
  rfl

theorem tail_zero_tick (s s' : State) (avail : Option Nat) (now : Nat)
    (hinv : ∀ i : Fin 255, s.cursor ≤ i.val → s.buffer.get i = 0)
    (h : tick s avail now = some s') :
    ∀ i : Fin 255, s'.cursor ≤ i.val → s'.buffer.get i = 0 := by
  cases avail with
  | none =>
    rw [tick_idle] at h
    simp only [Option.some.injEq] at h
    subst h
    by_cases hs : elapsed now s.last_read > 1000 ∧ s.cursor ≠ 0
    · rw [staleCheck_stale s now hs.1 hs.2]
      intro i _
      exact Mathlib.Vector.get_replicate 0 i
    · rw [staleCheck_fresh s now hs]
      exact hinv
  | some b =>
    by_cases hb : b % 256 = 10 ∨ b % 256 = 13
    · rw [tick_terminator s b now hb] at h
      simp only [Option.some.injEq] at h
      subst h
      intro i _
      exact Mathlib.Vector.get_replicate 0 i
    · by_cases hc : s.cursor < 255
      · rw [tick_byte s b now hb hc] at h
        simp only [Option.some.injEq] at h
        subst h
        intro i hi
        have hi' : s.cursor + 1 ≤ i.val := hi
        have hne : (⟨s.cursor, hc⟩ : Fin 255) ≠ i := by
          intro e
          have := congrArg Fin.val e
          simp only at this
          omega
        show (s.buffer.set ⟨s.cursor, hc⟩ (b % 256)).get i = 0
        rw [Mathlib.Vector.get_set_of_ne hne]
        exact hinv i (by omega)
      · rw [tick_overflow s b now hb hc] at h
        simp at h

theorem tail_zero_run (ticks : List (Option Nat × Nat)) (s s' : State)
    (hinv : ∀ i : Fin 255, s.cursor ≤ i.val → s.buffer.get i = 0)
    (h : run s ticks = some s') :
    ∀ i : Fin 255, s'.cursor ≤ i.val → s'.buffer.get i = 0 := by
  induction ticks generalizing s with
  | nil =>
    simp only [run, Option.some.injEq] at h
    subst h
    exact hinv
  | cons x xs ih =>
    obtain ⟨avail, now⟩ := x
    cases ht : tick s avail now with
    | none => simp [run, ht] at h
    | some s1 =>
      rw [run_cons s avail now xs s1 ht] at h
      exact ih s1 (tail_zero_tick s s1 avail now hinv ht) h

theorem tail_zero_reachable (s : State) (hr : Reachable s) :
    ∀ i : Fin 255, s.cursor ≤ i.val → s.buffer.get i = 0 := by
  obtain ⟨ticks, h⟩ := hr
  exact tail_zero_run ticks init s (fun i _ => Mathlib.Vector.get_replicate 0 i) h

theorem drop_zeros (l : List Nat) (k : Nat)
    (h : ∀ i, k ≤ i → ∀ hi : i < l.length, l[i] = 0) :
    l.drop k = List.replicate (l.length - k) 0 := by
  rw [List.eq_replicate_iff]
  refine ⟨by simp, ?_⟩
  intro b hb
  obtain ⟨j, hj, e⟩ := List.mem_iff_getElem.1 hb
  rw [List.getElem_drop] at e
  rw [← e]
  exact h _ (by omega) _

theorem text_of_tail_zero (b : Buffer) (k : Nat)
    (h : ∀ i : Fin 255, k ≤ i.val → b.get i = 0) :
    text b = (b.toList.take k).takeWhile (fun c => c ≠ 0) := by
  have hd : b.toList.drop k = List.replicate (b.toList.length - k) 0 := by
    apply drop_zeros
    intro i hki hi
    have hi' : i < 255 := by simpa using hi
    have := h ⟨i, hi'⟩ hki
    rw [Mathlib.Vector.get_eq_get] at this
    exact this
  unfold text
  conv_lhs => rw [← List.take_append_drop k b.toList, hd]
  exact takeWhile_padded _ _

theorem buffer_eq_zero (b : Buffer) (h : ∀ i : Fin 255, b.get i = 0) : b = zeroBuffer := by
  apply Mathlib.Vector.ext
  intro i
  rw [h i]
  exact (Mathlib.Vector.get_replicate 0 i).symm

/-- C13: in every state reachable from the initial state with cursor ≤ 254, every buffer
byte at an index ≥ cursor is zero. Hence, in such a state, the buffer is zero-terminated (the
byte at index `cursor` is zero, and the text `process()` compares is made of bytes at indices
below the cursor only); a state with cursor 0 has an all-zero buffer; and after any tick that
brings the cursor to 0 (a stale reset or a dispatch) the buffer is all zero, so the line
dispatched next is the text of the bytes received after that tick and of nothing else. -/
theorem C13_tail_zero (s : State) (hr : Reachable s) (hc : s.cursor ≤ 254) :
    (∀ i : Fin 255, s.cursor ≤ i.val → s.buffer.get i = 0) ∧
    (∃ h : s.cursor < 255, s.buffer.get ⟨s.cursor, h⟩ = 0) ∧
    text s.buffer = (s.buffer.toList.take s.cursor).takeWhile (fun c => c ≠ 0) ∧
    (text s.buffer).length ≤ s.cursor ∧
    (s.cursor = 0 → s.buffer = zeroBuffer) ∧
    (∀ avail now s', tick s avail now = some s' → s'.cursor = 0 →
      s'.buffer = zeroBuffer ∧
      ∀ (bs : List Nat) (ticks : List (Option Nat × Nat)), bs.length ≤ 254 →
        (∀ b ∈ bs, b < 256 ∧ b ≠ 10 ∧ b ≠ 13) → ticks.map Prod.fst = bs.map some →
        ∃ s1, run s' ticks = some s1 ∧
          text s1.buffer = bs.takeWhile (fun c => c ≠ 0)) := by
  have hinv := tail_zero_reachable s hr
  have htext := text_of_tail_zero s.buffer s.cursor hinv
  refine ⟨hinv, ⟨by omega, hinv _ (le_refl _)⟩, htext, ?_, ?_, ?_⟩
  · rw [htext]
    have h1 := (List.takeWhile_sublist (l := s.buffer.toList.take s.cursor)
      (fun c => decide (c ≠ 0))).length_le
    have h2 := List.length_take_le s.cursor s.buffer.toList
    omega
  · intro h0
    exact buffer_eq_zero s.buffer (fun i => hinv i (by omega))
  · intro avail now s' ht h0
    have hr' := reachable_tick s s' avail now hr ht
    have hz : s'.buffer = zeroBuffer :=
      buffer_eq_zero s'.buffer (fun i => tail_zero_reachable s' hr' i (by omega))
    refine ⟨hz, ?_⟩
    intro bs ticks hlen hbs hmap
    obtain ⟨s1, hrun, _, ht1, _, _, _⟩ := run_bytes_text bs ticks s' hmap hbs h0 hz hlen
    exact ⟨s1, hrun, ht1⟩

set_option maxRecDepth 100000 in
/-- C13 after the bytes `r`, `e`: the bytes from index 2 on are zero; an idle tick at time
2000 discards the partial command, and `r`, `e`, `d` received afterwards make the buffered
line `red`; the whole run `r`, `e`, timeout, `r`, `e`, `d`, `'\n'` prints `error` and then
`ok (red)`. -/
theorem C13_tail_zero_witness :
    (afterRE.cursor ≤ 254 ∧ ∀ i : Fin 255, afterRE.cursor ≤ i.val → afterRE.buffer.get i = 0) ∧
    (∀ s', tick afterRE none 2000 = some s' → s'.cursor = 0 →
      s'.buffer = zeroBuffer ∧
      ∃ s1, run s' [(some 114, 2001), (some 101, 2002), (some 100, 2003)] = some s1 ∧
        text s1.buffer = ([114, 101, 100] : List Nat).takeWhile (fun c => c ≠ 0)) ∧
    (run init [(some 114, 0), (some 101, 1), (none, 2000), (some 114, 2001), (some 101, 2002),
        (some 100, 2003), (some 10, 2004)]).map State.serial = some ["error", "ok (red)"] := by
  have h := C13_tail_zero afterRE ⟨[(some 114, 0), (some 101, 1)], afterRE_run⟩ (by decide)
  refine ⟨⟨by decide, h.1⟩, ?_, by decide⟩
  intro s' ht h0
  obtain ⟨hz, hnext⟩ := h.2.2.2.2.2 none 2000 s' ht h0
  exact ⟨hz, hnext [114, 101, 100] [(some 114, 2001), (some 101, 2002), (some 100, 2003)]
    (by decide) (by decide) (by decide)⟩

/-! ## The one-shot flag -/

/-- C14: in every state reachable from the initial state, `cleared = true` implies
`cursor = 0`. Consequently, whenever the staleness condition holds on an idle tick
(`now - last_read > 1000` and `cursor ≠ 0`), the flag is false, and the reset prints `error`:
the flag never suppresses a report. The staleness check of a byte tick runs right after
`cleared = false`, so a reset there (possible only if the clock advances by more than 1000
between the two `millis()` readings of one `loop` run) prints `error` as well. -/
theorem C14_flag_never_suppresses (s : State) (hr : Reachable s) :
    (s.cleared = true → s.cursor = 0) ∧
    (∀ now, elapsed now s.last_read > 1000 ∧ s.cursor ≠ 0 →
      s.cleared = false ∧
      tick s none now =
        some { s with cursor := 0, buffer := zeroBuffer, cleared := true,
                      serial := s.serial ++ ["error"] }) ∧
    (∀ b now₁ now₂, ¬ (b % 256 = 10 ∨ b % 256 = 13) → s.cursor < 255 →
      elapsed now₂ (now₁ % 2 ^ 32) > 1000 →
      loop s (some b) now₁ now₂ =
        some { s with cursor := 0, buffer := zeroBuffer, cleared := true,
                      last_read := now₁ % 2 ^ 32, serial := s.serial ++ ["error"] }) := by
  have hinv := cleared_reachable s hr
  refine ⟨hinv, ?_, ?_⟩
  · rintro now ⟨hst, hc⟩
    have hcl : s.cleared = false := by
      cases h : s.cleared with
      | false => rfl
      | true => exact absurd (hinv h) hc
    refine ⟨hcl, ?_⟩
    rw [tick_idle, staleCheck_stale s now hst hc, hcl]
    rfl
  · intro b now₁ now₂ hb hc hst
    have hmod : (s.cursor + 1) % 2 ^ 32 = s.cursor + 1 := Nat.mod_eq_of_lt (by omega)
    unfold loop
    simp only [hb, if_false, hc, dite_true, hmod]
    rw [staleCheck_stale _ now₂ hst (by show s.cursor + 1 ≠ 0; omega)]
    rfl

/-- C14 after the bytes `r`, `e`: the flag is false, and the idle tick at time 1002 prints
`error`. -/
theorem C14_flag_never_suppresses_witness :
    (afterRE.cleared = true → afterRE.cursor = 0) ∧
    ((elapsed 1002 afterRE.last_read > 1000 ∧ afterRE.cursor ≠ 0) ∧
      afterRE.cleared = false ∧
      tick afterRE none 1002 =
        some { afterRE with cursor := 0, buffer := zeroBuffer, cleared := true,
                            serial := afterRE.serial ++ ["error"] }) :=
  ⟨(C14_flag_never_suppresses afterRE ⟨[(some 114, 0), (some 101, 1)], afterRE_run⟩).1,
   ⟨by decide,
    (C14_flag_never_suppresses afterRE ⟨[(some 114, 0), (some 101, 1)], afterRE_run⟩).2.1
      1002 (by decide)⟩⟩

/-! ## Wrap-around of the millisecond counter -/

theorem elapsed_wrap (last d : Nat) (hd : d < 2 ^ 32) :
    elapsed ((last + d) % 2 ^ 32) last = d := by
  unfold elapsed
  omega

/-- C15: the staleness test is `(now - last_read) mod 2^32 > 1000`, so it is right across a
wrap-around of the millisecond counter: for every `last_read` and every true elapsed time
`d < 2^32`, with `now = (last_read + d) mod 2^32` the computed difference is `d`, and an
idle tick with cursor ≠ 0 is treated as stale (the partial command is reset) if and only if
`d > 1000`; with `d ≤ 1000` the tick changes nothing. -/
theorem C15_stale_across_wrap (s : State) (d : Nat) (hd : d < 2 ^ 32) (hc : s.cursor ≠ 0) :
    elapsed ((s.last_read + d) % 2 ^ 32) s.last_read = d ∧
    ((elapsed ((s.last_read + d) % 2 ^ 32) s.last_read > 1000 ∧ s.cursor ≠ 0) ↔ d > 1000) ∧
    (tick s none ((s.last_read + d) % 2 ^ 32) ≠ some s ↔ d > 1000) ∧
    (d > 1000 →
      tick s none ((s.last_read + d) % 2 ^ 32) =
        some { s with cursor := 0, buffer := zeroBuffer, cleared := true,
                      serial := if s.cleared then s.serial else s.serial ++ ["error"] }) ∧
    (d ≤ 1000 → tick s none ((s.last_read + d) % 2 ^ 32) = some s) := by
  have he := elapsed_wrap s.last_read d hd
  have hstale : d > 1000 →
      tick s none ((s.last_read + d) % 2 ^ 32) =
        some { s with cursor := 0, buffer := zeroBuffer, cleared := true,
                      serial := if s.cleared then s.serial else s.serial ++ ["error"] } := by
    intro h
    rw [tick_idle, staleCheck_stale s _ (by rw [he]; exact h) hc]
  have hfresh : d ≤ 1000 → tick s none ((s.last_read + d) % 2 ^ 32) = some s := by
    intro h
    rw [tick_idle, staleCheck_fresh s _ (by rw [he]; omega)]
  refine ⟨he, ?_, ⟨?_, ?_⟩, hstale, hfresh⟩
  · rw [he]
    exact ⟨fun h => h.1, fun h => ⟨h, hc⟩⟩
  · intro hne
    by_contra hcon
    exact hne (hfresh (by omega))
  · intro h heq
    rw [hstale h] at heq
    have hcur := congrArg State.cursor (Option.some.inj heq)
    exact hc hcur.symm

/-- C15 with `last_read = 2^32 - 500` and cursor 2: after 1001 ms the counter has wrapped to
501 and the idle tick is stale; after 1000 ms (counter 500) it is not. -/
theorem C15_stale_across_wrap_witness :
    ((1001 < 2 ^ 32 ∧ ({ afterRE with last_read := 4294966796 } : State).cursor ≠ 0) ∧
      (4294966796 + 1001) % 2 ^ 32 = 501 ∧
      elapsed ((4294966796 + 1001) % 2 ^ 32) 4294966796 = 1001 ∧
      tick { afterRE with last_read := 4294966796 } none ((4294966796 + 1001) % 2 ^ 32)
        ≠ some { afterRE with last_read := 4294966796 }) ∧
    ((1000 < 2 ^ 32 ∧ ({ afterRE with last_read := 4294966796 } : State).cursor ≠ 0) ∧
      tick { afterRE with last_read := 4294966796 } none ((4294966796 + 1000) % 2 ^ 32)
        = some { afterRE with last_read := 4294966796 }) :=
  ⟨⟨⟨by decide, by decide⟩, by decide,
    (C15_stale_across_wrap { afterRE with last_read := 4294966796 } 1001
      (by decide) (by decide)).1,
    (C15_stale_across_wrap { afterRE with last_read := 4294966796 } 1001
      (by decide) (by decide)).2.2.1.2 (by decide)⟩,
   ⟨⟨by decide, by decide⟩,
    (C15_stale_across_wrap { afterRE with last_read := 4294966796 } 1000
      (by decide) (by decide)).2.2.2.2 (by decide)⟩⟩

end Milton
